import Mathlib

/-!
Verification of the document-resolution and caching engine of the SEC
scraper server (src/server.py) against its natural-language specification.

Strings that undergo character-level operations (URLs, CIK digit strings)
are modelled as lists of character codes (`List Nat`), so that ASCII case
mapping and padding are plain arithmetic.  Section names, tag names and
entity names, which are only ever compared for equality, are modelled as
Lean strings.  Python dictionaries are modelled as association lists in
insertion order, with lookup returning the first matching key.  Fallible
Python code (operations that can raise) is modelled in the `Except` monad
over an explicit exception type.
-/

namespace SecScraper

/-! ### Character-code strings and Python dict lookup -/

/-- A Python string viewed as its list of character codes.
Relevant codes: 35 is the hash sign, 43 is plus, 45 is minus,
46 is the dot, 48 is the digit zero, 63 is the question mark,
65-90 are the upper-case letters, 97-122 the lower-case letters. -/
abbrev PyStr := List Nat

/-- ASCII lower-casing of one character code, as Python str.lower does
on ASCII input: upper-case letters move down by 32, all else unchanged. -/
def asciiLower (c : Nat) : Nat := if 65 ≤ c ∧ c ≤ 90 then c + 32 else c

/-- Python str.lower on a character-code string. -/
def pyLower (s : PyStr) : PyStr := s.map asciiLower

/-- Python dict lookup (first binding of the key wins; dicts never hold
a key twice, so this is exact). -/
def alookup {κ α : Type} [DecidableEq κ] : List (κ × α) → κ → Option α
  | [], _ => none
  | (k', v) :: rest, k => if k' = k then some v else alookup rest k

/-! ### `_canonical_xbrl_url` (src/server.py lines 278-283)

    clean = url.split("?")[0].split("#")[0]
    return clean.lower()

split(sep)[0] is the prefix of the string before the first occurrence of
the separator (the whole string when the separator is absent). -/

/-- Embedding of `_canonical_xbrl_url`. -/
def _canonical_xbrl_url (url : PyStr) : PyStr :=
  pyLower ((url.takeWhile (· != 63)).takeWhile (· != 35))

/-! ### The cached XBRL fetch `_fetch_xbrl_json` (src/server.py lines 289-304)

The function is decorated with lru_cache, which memoizes on the raw
argument string; the body then canonicalizes the URL and performs the
remote request against the canonical form.  The cache is modelled as an
association list from raw argument to parsed content, and the remote
service as a function from requested URL to content; the third component
of the result counts the remote fetches performed by the call (0 on a
cache hit, 1 on a miss).  The claims exercise two calls, far below the
128-entry capacity, so eviction never fires and is not modelled. -/

/-- A fact record of a parsed XBRL document: a value (numeric or null)
and the end date of its reporting period (absent when the payload lacks
the nested period/endDate fields). -/
structure Fact where
  value : Option Rat
  periodEnd : Option String
  deriving DecidableEq

/-- One section of a parsed XBRL document: tag name to fact list. -/
abbrev SectionData := List (String × List Fact)

/-- A parsed XBRL document: section name to section content. -/
abbrev Content := List (String × SectionData)

/-- The memo table of `_fetch_xbrl_json`: raw argument string to result. -/
abbrev XbrlCache := List (PyStr × Content)

/-- Embedding of `_fetch_xbrl_json` together with its lru_cache.
`remote` is the xbrl-to-json endpoint (a successful fetch).  Returns the
parsed content, the cache after the call, and the number of remote
fetches the call performed. -/
def _fetch_xbrl_json (remote : PyStr → Content) (cache : XbrlCache)
    (xbrl_url : PyStr) : Content × XbrlCache × Nat :=
  match alookup cache xbrl_url with
  | some c => (c, cache, 0)
  | none =>
    let c := remote (_canonical_xbrl_url xbrl_url)
    (c, (xbrl_url, c) :: cache, 1)

/-! ### Canonicalization lemmas -/

theorem asciiLower_idem (c : Nat) : asciiLower (asciiLower c) = asciiLower c := by
  unfold asciiLower
  by_cases h : 65 ≤ c ∧ c ≤ 90
  · simp only [if_pos h]
    rw [if_neg (by omega)]
  · simp only [if_neg h]

theorem asciiLower_eq_63 {c : Nat} : asciiLower c = 63 ↔ c = 63 := by
  unfold asciiLower
  split <;> omega

theorem asciiLower_eq_35 {c : Nat} : asciiLower c = 35 ↔ c = 35 := by
  unfold asciiLower
  split <;> omega

theorem bne63_asciiLower (c : Nat) : (asciiLower c != 63) = (c != 63) := by
  rcases eq_or_ne c 63 with h | h
  · subst h; rfl
  · have h2 : asciiLower c ≠ 63 := fun hc => h (asciiLower_eq_63.mp hc)
    rw [bne_iff_ne.mpr h2, bne_iff_ne.mpr h]

theorem bne35_asciiLower (c : Nat) : (asciiLower c != 35) = (c != 35) := by
  rcases eq_or_ne c 35 with h | h
  · subst h; rfl
  · have h2 : asciiLower c ≠ 35 := fun hc => h (asciiLower_eq_35.mp hc)
    rw [bne_iff_ne.mpr h2, bne_iff_ne.mpr h]

theorem takeWhile_all {α : Type} (p : α → Bool) (l : List α)
    (h : ∀ a ∈ l, p a = true) : l.takeWhile p = l := by
  induction l with
  | nil => rfl
  | cons a rest ih =>
    have ha : p a = true := h a (by simp)
    have ih2 := ih fun x hx => h x (by simp [hx])
    simp [List.takeWhile_cons, ha, ih2]

theorem takeWhile_idem {α : Type} (p : α → Bool) (l : List α) :
    (l.takeWhile p).takeWhile p = l.takeWhile p :=
  takeWhile_all p _ fun _ ha => List.mem_takeWhile_imp ha

/-- takeWhile ignores everything from the first failing element on,
wherever it sits. -/
theorem takeWhile_append_cons_not {α : Type} (p : α → Bool) (l l2 : List α)
    (a : α) (ha : p a = false) :
    (l ++ a :: l2).takeWhile p = l.takeWhile p := by
  induction l with
  | nil => simp [List.takeWhile_cons, ha]
  | cons b rest ih =>
    by_cases hb : p b
    · simp [List.takeWhile_cons, hb, ih]
    · simp [List.takeWhile_cons, hb]

/-- Members of the stripped part of a URL pass both delimiter tests. -/
theorem strip_no63 (url : PyStr) :
    ∀ c ∈ (url.takeWhile (· != 63)).takeWhile (· != 35), (c != 63) = true := by
  intro c hc
  have h1 : c ∈ url.takeWhile (· != 63) :=
    (List.takeWhile_sublist (l := url.takeWhile (· != 63)) (· != 35)).subset hc
  exact List.mem_takeWhile_imp (p := fun x => x != 63) h1

/-- Lower-casing commutes with stripping at the first question mark and
the first hash, because case mapping never creates or destroys those two
delimiters. -/
theorem strip_pyLower (url : PyStr) :
    (((pyLower url).takeWhile (· != 63)).takeWhile (· != 35)) =
      pyLower ((url.takeWhile (· != 63)).takeWhile (· != 35)) := by
  unfold pyLower
  rw [List.takeWhile_map, List.takeWhile_map]
  have h63 : ((fun c : Nat => c != 63) ∘ asciiLower) = fun c : Nat => c != 63 := by
    funext c
    simp [Function.comp, bne63_asciiLower]
  have h35 : ((fun c : Nat => c != 35) ∘ asciiLower) = fun c : Nat => c != 35 := by
    funext c
    simp [Function.comp, bne35_asciiLower]
  rw [h63, h35]

/-- C6: the canonicalization is idempotent, and two references that
differ only by an appended query string, an appended fragment, or letter
case produce the identical key. -/
theorem c6_canonicalization_idempotent_and_invariant :
    (∀ url : PyStr, _canonical_xbrl_url (_canonical_xbrl_url url) = _canonical_xbrl_url url) ∧
    (∀ base query : PyStr,
      _canonical_xbrl_url (base ++ 63 :: query) = _canonical_xbrl_url base) ∧
    (∀ base frag : PyStr,
      _canonical_xbrl_url (base ++ 35 :: frag) = _canonical_xbrl_url base) ∧
    (∀ u v : PyStr, pyLower u = pyLower v →
      _canonical_xbrl_url u = _canonical_xbrl_url v) := by
  refine ⟨?_, ?_, ?_, ?_⟩
  · intro url
    unfold _canonical_xbrl_url
    rw [strip_pyLower]
    rw [takeWhile_all (· != 63) _ (strip_no63 url), takeWhile_idem]
    unfold pyLower
    rw [List.map_map]
    congr 1
    funext c
    simp [Function.comp, asciiLower_idem]
  · intro base query
    unfold _canonical_xbrl_url
    rw [takeWhile_append_cons_not _ _ _ _ (by simp)]
  · intro base frag
    unfold _canonical_xbrl_url
    rw [List.takeWhile_append]
    split
    · next hlen =>
      have hbase : base.takeWhile (· != 63) = base :=
        (List.takeWhile_sublist _).eq_of_length hlen
      rw [hbase]
      have hcons : (35 :: frag).takeWhile (· != 63) = 35 :: frag.takeWhile (· != 63) := by
        simp [List.takeWhile_cons]
      rw [hcons, takeWhile_append_cons_not _ _ _ _ (by simp)]
    · rfl
  · intro u v huv
    unfold _canonical_xbrl_url
    rw [← strip_pyLower, ← strip_pyLower, huv]

/-- Witness for C6: concrete equivalent references, "HTTP://X/A.XML",
"http://x/a.xml?v=1" and "http://x/a.xml#frag", all share the canonical
key "http://x/a.xml". -/
theorem c6_witness :
    pyLower [72, 84, 84, 80, 58, 47, 47, 88, 47, 65, 46, 88, 77, 76] =
        pyLower [104, 116, 116, 112, 58, 47, 47, 120, 47, 97, 46, 120, 109, 108] ∧
    _canonical_xbrl_url [72, 84, 84, 80, 58, 47, 47, 88, 47, 65, 46, 88, 77, 76] =
      _canonical_xbrl_url [104, 116, 116, 112, 58, 47, 47, 120, 47, 97, 46, 120, 109, 108] ∧
    _canonical_xbrl_url
        ([104, 116, 116, 112, 58, 47, 47, 120, 47, 97, 46, 120, 109, 108] ++ 63 :: [118, 61, 49]) =
      [104, 116, 116, 112, 58, 47, 47, 120, 47, 97, 46, 120, 109, 108] := by
  refine ⟨by decide, ?_, by decide⟩
  exact c6_canonicalization_idempotent_and_invariant.2.2.2 _ _ (by decide)

/-! ### C1: the cache-hit guarantee fails on the code.

lru_cache memoizes `_fetch_xbrl_json` on its raw argument; the
canonical form is only used for the outgoing request.  Two equivalent
references therefore occupy two distinct cache entries and each triggers
its own remote fetch, contradicting the docstring of the function
("Uses canonical URL so variants map to the same key") and the spec. -/

/-- C1: with an empty cache, fetching "a?b" and then "a?c" - two
references that differ only by query string and share the canonical key
"a" - performs two remote fetches in total, not one: the second call
misses the cache because the memo key is the raw argument string. -/
theorem c1_equivalent_urls_fetch_twice :
    _canonical_xbrl_url [97, 63, 98] = _canonical_xbrl_url [97, 63, 99] ∧
    [97, 63, 98] ≠ [97, 63, 99] ∧
    (let remote : PyStr → Content := fun _ => []
     let r1 := _fetch_xbrl_json remote [] [97, 63, 98]
     let r2 := _fetch_xbrl_json remote r1.2.1 [97, 63, 99]
     r1.2.2 + r2.2.2 = 2) := by
  refine ⟨by decide, by decide, by decide⟩

/-! ### The tag resolution engine

`extract_metric_from_section` (src/server.py lines 317-357),
`_lookup_tag_any_section` (lines 155-163) and `get_metric_smart`
(lines 373-408).  The parsed document is passed in directly (the cached
fetch is modelled above); operations that can raise run in `Except`. -/

/-- Python exceptions the modelled code paths can raise. -/
inductive PyExn
  | typeError   -- int(None)
  | indexError  -- [0] on an empty list
  | keyError    -- d[k] with k absent
  deriving DecidableEq

/-- Python int() applied to a numeric value truncates toward zero. -/
def pyTrunc (q : Rat) : Int := q.num.tdiv q.den

/-- int() applied to a possibly-null value: int(None) raises TypeError. -/
def pyIntOpt : Option Rat → Except PyExn Int
  | none => .error .typeError
  | some q => .ok (pyTrunc q)

/-- The [0] index of a Python list: raises IndexError when empty. -/
def pyIndex0 {α : Type} : List α → Except PyExn α
  | [] => .error .indexError
  | a :: _ => .ok a

/-- ".xml" as character codes. -/
def xmlSuffix : PyStr := [46, 120, 109, 108]

/-- xbrl_url.lower().endswith(".xml") -/
def endsWithXml (u : PyStr) : Bool := xmlSuffix.isSuffixOf (pyLower u)

/-- The observable outcomes of the metric tools.  Each constructor stands
for one of the formatted strings the Python functions return; the
success constructor carries the data interpolated into the success line
"{tag} ({section}) - {period}: ${int(value):,}", and urlError stands for
the wrong-URL-type guard message of either tool. -/
inductive SmartResult
  | urlError
  | sectionNotFound (sec : String)
  | tagNotFound (tag sec : String) (samples : List String)
  | noValue (tag : String)
  | metric (tag sec period : String) (amount : Int)
  deriving DecidableEq

/-- Embedding of `extract_metric_from_section`: strict single-section
lookup.  The null-value case is checked explicitly and reported. -/
def extract_metric_from_section (url : PyStr) (data : Content) (sec tag : String) :
    Except PyExn SmartResult :=
  if endsWithXml url then
    match alookup data sec with
    | none => pure (.sectionNotFound sec)
    | some section_data =>
      match alookup section_data tag with
      | none => pure (.tagNotFound tag sec ((section_data.map Prod.fst).take 10))
      | some facts => do
          let entry ← pyIndex0 facts
          match entry.value with
          | none => pure (.noValue tag)
          | some v => pure (.metric tag sec (entry.periodEnd.getD "unknown date") (pyTrunc v))
  else pure .urlError

/-- Embedding of `_lookup_tag_any_section`: first section containing the
tag wins; returns that section's name and the first fact's value. -/
def _lookup_tag_any_section (data : Content) (tag : String) :
    Except PyExn (Option (String × Option Rat)) :=
  match data with
  | [] => pure none
  | (secName, sd) :: rest =>
    match alookup sd tag with
    | some facts => do
        let entry ← pyIndex0 facts
        pure (some (secName, entry.value))
    | none => _lookup_tag_any_section rest tag

/-- Python `section_hint or "StatementsOfOperations"` (line 408): the
hint when it is truthy (present and non-empty), else the default. -/
def pyOrStr (a : Option String) (b : String) : String :=
  match a with
  | some s => if s = "" then b else s
  | none => b

/-- Steps 2-3 of `get_metric_smart`: the full scan, then the legacy
extractor on the hinted (or default) section.  The keyError branches are
unreachable for dict-shaped data: the scanned section was found in
`data` a moment earlier. -/
def smartScan (url : PyStr) (data : Content) (tag : String)
    (section_hint : Option String) : Except PyExn SmartResult := do
  match ← _lookup_tag_any_section data tag with
  | some (sec, val) =>
    match alookup data sec with
    | none => Except.error .keyError
    | some sd =>
      match alookup sd tag with
      | none => Except.error .keyError
      | some facts => do
          let entry ← pyIndex0 facts
          let n ← pyIntOpt val
          pure (.metric tag sec (entry.periodEnd.getD "unknown") n)
  | none => extract_metric_from_section url data (pyOrStr section_hint "StatementsOfOperations") tag

/-- Embedding of `get_metric_smart`.  The hinted fast path fires when
the hint is TRUTHY (present and non-empty - line 395 tests
`if section_hint and ...`), names a section of the document, and that
section contains the tag; it formats the first fact with int(value)
WITHOUT the null check that `extract_metric_from_section` performs. -/
def get_metric_smart (url : PyStr) (data : Content) (tag : String)
    (section_hint : Option String) : Except PyExn SmartResult :=
  if endsWithXml url then
    match section_hint with
    | some h =>
      if h = "" then smartScan url data tag (some h)
      else
        match (alookup data h).bind (fun sd => alookup sd tag) with
        | some facts => do
            let entry ← pyIndex0 facts
            let n ← pyIntOpt entry.value
            pure (.metric tag h (entry.periodEnd.getD "unknown") n)
        | none => smartScan url data tag (some h)
    | none => smartScan url data tag none
  else pure .urlError

/-! ### C2: the no-unhandled-exception guarantee fails on the code.

On the hinted fast path `get_metric_smart` interpolates int(value) into
the result string with no null check, so a present-but-null first fact
raises TypeError out of the tool, while the legacy extractor reports the
very same situation with an explanatory message. -/

/-- "doc.xml" -/
def c2Url : PyStr := [100, 111, 99, 46, 120, 109, 108]

/-- A document whose section "S" holds tag "T" with a null first value. -/
def c2Data : Content := [("S", [("T", [{ value := none, periodEnd := some "2024-12-31" }])])]

/-- C2: at a cached document whose hinted section contains the tag with a
null first value, get_metric_smart raises TypeError (int(None)) instead
of returning an explanatory failure string, even though the legacy
extractor returns the explicit no-value message on the same input. -/
theorem c2_smart_fast_path_raises_on_null :
    get_metric_smart c2Url c2Data "T" (some "S") = .error .typeError ∧
    extract_metric_from_section c2Url c2Data "S" "T" = .ok (.noValue "T") :=
  ⟨rfl, rfl⟩

/-! ### C3: the hinted fast path returns the hinted value - once the
first fact's value is non-null.  As stated the claim also covers a null
hinted value, where the code raises instead of returning. -/

/-- "a.xml" -/
def c3Url : PyStr := [97, 46, 120, 109, 108]

/-- Hinted section holds the tag with a null first value; another
section holds the same tag with a real value. -/
def c3Data : Content :=
  [("Hinted", [("T", [{ value := none, periodEnd := some "2025-12-31" }])]),
   ("Other",  [("T", [{ value := some 7, periodEnd := some "2024-12-31" }])])]

/-- C3 counterexample: the hinted section is present and contains the
tag, yet get_metric_smart does not return the hinted section's first
fact's value and period - it raises TypeError, because that first value
is null. -/
theorem c3_counterexample :
    ((alookup c3Data "Hinted").bind fun sd => alookup sd "T") =
      some [{ value := none, periodEnd := some "2025-12-31" }] ∧
    get_metric_smart c3Url c3Data "T" (some "Hinted") = .error .typeError :=
  ⟨rfl, rfl⟩

/-- C3 (amended with: the hint is a non-empty string - an empty hint is
falsy in Python and skips the fast path - and the hinted section's first
fact's value is non-null): get_metric_smart returns the hinted section's
first fact's value (truncated to integer) and period, whatever the rest
of the document holds - in particular when the tag also appears in
another section with a different value. -/
theorem c3_hinted_section_first_fact (url : PyStr) (data : Content) (tag h : String)
    (sd : SectionData) (facts : List Fact) (e : Fact) (v : Rat)
    (hurl : endsWithXml url = true)
    (hne : h ≠ "")
    (hsec : alookup data h = some sd)
    (htag : alookup sd tag = some facts)
    (hhead : facts.head? = some e)
    (hval : e.value = some v) :
    get_metric_smart url data tag (some h) =
      .ok (.metric tag h (e.periodEnd.getD "unknown") (pyTrunc v)) := by
  cases facts with
  | nil => simp at hhead
  | cons a rest =>
    have ha : a = e := by simpa using hhead
    subst ha
    simp [get_metric_smart, hurl, hne, hsec, htag, pyIndex0, pyIntOpt, hval, Bind.bind,
      Except.bind, Functor.map, Except.map, Pure.pure, Except.pure]

/-- "s.xml" -/
def c3wUrl : PyStr := [115, 46, 120, 109, 108]

/-- The scanned order would find section "Scanned" (value 9) first; the
hint "S" (value 7) must win. -/
def c3wData : Content :=
  [("Scanned", [("T", [{ value := some 9, periodEnd := some "2024-06-30" }])]),
   ("S", [("T", [{ value := some 7, periodEnd := some "2025-06-30" }])])]

/-- Witness for C3: on a document where a full scan would surface value 9
from the earlier section, the hinted lookup returns the hinted section's
value 7 and its period. -/
theorem c3_witness :
    get_metric_smart c3wUrl c3wData "T" (some "S") =
      .ok (.metric "T" "S" "2025-06-30" 7) := by
  have h := c3_hinted_section_first_fact c3wUrl c3wData "T" "S"
    [("T", [{ value := some 7, periodEnd := some "2025-06-30" }])]
    [{ value := some 7, periodEnd := some "2025-06-30" }]
    { value := some 7, periodEnd := some "2025-06-30" } 7
    rfl (by decide) rfl rfl rfl rfl
  simpa using h

/-! ### C7: numeric display values truncate toward zero -/

theorem pyTrunc_eq_floor_ceil (q : Rat) : pyTrunc q = if 0 ≤ q then ⌊q⌋ else ⌈q⌉ := by
  unfold pyTrunc
  split
  · next h =>
    have hnum : 0 ≤ q.num := Rat.num_nonneg.mpr h
    rw [Int.tdiv_eq_ediv hnum (by positivity), Rat.floor_def]
  · next h =>
    push_neg at h
    have hnum : q.num < 0 := Rat.num_neg.mpr h
    have hq : ⌈q⌉ = -⌊-q⌋ := by
      rw [← neg_neg q, Int.ceil_neg, neg_neg]
    have h2 : (-q.num).tdiv q.den = ⌊-q⌋ := by
      rw [Int.tdiv_eq_ediv (by omega) (by positivity), Rat.floor_def, Rat.neg_num, Rat.neg_den]
    have h3 : (-q.num).tdiv q.den = -(q.num.tdiv q.den) := Int.neg_tdiv q.num q.den
    rw [hq]
    omega

/-- C7: whenever the strict extractor resolves a section and tag to a
first fact with a non-null (possibly fractional) value q, the displayed
integer is the truncation of q toward zero - floor for non-negative
values, ceiling for negative ones - never the rounded value. -/
theorem c7_display_value_truncates (url : PyStr) (data : Content) (sec tag : String)
    (sd : SectionData) (facts : List Fact) (e : Fact) (q : Rat)
    (hurl : endsWithXml url = true)
    (hsec : alookup data sec = some sd)
    (htag : alookup sd tag = some facts)
    (hhead : facts.head? = some e)
    (hval : e.value = some q) :
    extract_metric_from_section url data sec tag =
      .ok (.metric tag sec (e.periodEnd.getD "unknown date")
        (if 0 ≤ q then ⌊q⌋ else ⌈q⌉)) := by
  cases facts with
  | nil => simp at hhead
  | cons a rest =>
    have ha : a = e := by simpa using hhead
    subst ha
    rw [← pyTrunc_eq_floor_ceil]
    simp [extract_metric_from_section, hurl, hsec, htag, pyIndex0, hval, Bind.bind,
      Except.bind, Functor.map, Except.map, Pure.pure, Except.pure]

/-- "f.xml" -/
def c7Url : PyStr := [102, 46, 120, 109, 108]

/-- A document with the fractional fact value 1234567.89. -/
def c7Data : Content :=
  [("IncomeStatement",
    [("Revenues", [{ value := some (1234567.89 : Rat), periodEnd := some "2024-12-31" }])])]

/-- Witness for C7: the fact value 1234567.89 is surfaced as 1234567,
which is not the rounded value 1234568. -/
theorem c7_witness :
    extract_metric_from_section c7Url c7Data "IncomeStatement" "Revenues" =
      .ok (.metric "Revenues" "IncomeStatement" "2024-12-31" 1234567) ∧
    (1234567 : Int) ≠ round (1234567.89 : Rat) := by
  constructor
  · have h := c7_display_value_truncates c7Url c7Data "IncomeStatement" "Revenues"
      [("Revenues", [{ value := some (1234567.89 : Rat), periodEnd := some "2024-12-31" }])]
      [{ value := some (1234567.89 : Rat), periodEnd := some "2024-12-31" }]
      { value := some (1234567.89 : Rat), periodEnd := some "2024-12-31" }
      (1234567.89 : Rat) rfl rfl rfl rfl rfl
    rw [h]
    norm_num
  · rw [round_eq]
    norm_num

/-! ### Insider trades: `get_insider_trades` and its local helper
`_first_transaction` (src/server.py lines 451-507).

A raw filing entry carries the reporting owner's name, the period of
report, and the non-derivative transaction list; each transaction is
modelled by the five leaf fields the extractor reads (a missing nested
dict and a missing leaf both surface as `none`). -/

structure InsiderTx where
  codingCode : Option String            -- tx["coding"]["code"]
  transactionSharesValue : Option Rat   -- tx["transactionShares"]["value"]
  amountsShares : Option Rat            -- tx["amounts"]["shares"]
  transactionPriceValue : Option Rat    -- tx["transactionPrice"]["value"]
  amountsPricePerShare : Option Rat     -- tx["amounts"]["pricePerShare"]
  deriving DecidableEq

structure InsiderEntry where
  reportingOwnerName : Option String
  periodOfReport : Option String
  nonDerivativeTransactions : List InsiderTx
  deriving DecidableEq

/-- Python truthiness of a possibly-null number: None and 0 are falsy. -/
def ratTruthy : Option Rat → Bool
  | none => false
  | some q => q != 0

/-- Python `a or b` on possibly-null numbers: a when truthy, else b. -/
def pyOr (a b : Option Rat) : Option Rat := if ratTruthy a then a else b

/-- Embedding of `_first_transaction`: the placeholder on an empty
transaction list, otherwise code, shares and price of the first
transaction, shares and price each read with Python `or` over the two
alternative field spellings. -/
def _first_transaction (entry : InsiderEntry) : String × Option Rat × Option Rat :=
  match entry.nonDerivativeTransactions with
  | [] => ("?", none, none)
  | tx :: _ =>
    (tx.codingCode.getD "?",
     pyOr tx.transactionSharesValue tx.amountsShares,
     pyOr tx.transactionPriceValue tx.amountsPricePerShare)

/-- A first transaction whose primary share field is present and 0 and
whose alternate share field is 5. -/
def c9Entry : InsiderEntry :=
  { reportingOwnerName := some "A Insider", periodOfReport := some "2025-01-02",
    nonDerivativeTransactions :=
      [{ codingCode := some "S", transactionSharesValue := some 0,
         amountsShares := some 5, transactionPriceValue := none,
         amountsPricePerShare := some 10 }] }

/-- C9 counterexample: the first non-null share candidate is 0, yet the
extractor reports 5 - Python `or` skips a present-but-zero first
candidate, so the lookup is first-TRUTHY-wins, not first-non-null-wins
as claimed. -/
theorem c9_counterexample :
    (c9Entry.nonDerivativeTransactions.head?.map (·.transactionSharesValue)) =
      some (some 0) ∧
    (_first_transaction c9Entry).2.1 = some 5 ∧
    some (5 : Rat) ≠ some (0 : Rat) := by
  refine ⟨rfl, by decide, by decide⟩

/-- C9 (amended: the ordered two-alternative lookup takes the first
non-null AND non-zero candidate; a present first candidate of 0 falls
through to the alternate, because the source combines the candidates
with Python `or`): the extractor returns ("?", null, null) on an empty
non-derivative list, otherwise uses only the first transaction, with
code, shares and price as characterized below. -/
theorem c9_first_transaction_extraction (e : InsiderEntry) :
    (e.nonDerivativeTransactions = [] → _first_transaction e = ("?", none, none)) ∧
    (∀ tx rest, e.nonDerivativeTransactions = tx :: rest →
      _first_transaction e =
        _first_transaction ⟨e.reportingOwnerName, e.periodOfReport, [tx]⟩ ∧
      (_first_transaction e).1 = tx.codingCode.getD "?" ∧
      (∀ q : Rat, tx.transactionSharesValue = some q → q ≠ 0 →
        (_first_transaction e).2.1 = some q) ∧
      ((tx.transactionSharesValue = none ∨ tx.transactionSharesValue = some 0) →
        (_first_transaction e).2.1 = tx.amountsShares) ∧
      (∀ q : Rat, tx.transactionPriceValue = some q → q ≠ 0 →
        (_first_transaction e).2.2 = some q) ∧
      ((tx.transactionPriceValue = none ∨ tx.transactionPriceValue = some 0) →
        (_first_transaction e).2.2 = tx.amountsPricePerShare)) := by
  refine ⟨fun he => by simp [_first_transaction, he], fun tx rest he => ?_⟩
  simp only [_first_transaction, he]
  refine ⟨by trivial, by trivial, ?_, ?_, ?_, ?_⟩
  · intro q hq hq0
    simp [pyOr, ratTruthy, hq, hq0]
  · rintro (h | h) <;> simp [pyOr, ratTruthy, h]
  · intro q hq hq0
    simp [pyOr, ratTruthy, hq, hq0]
  · rintro (h | h) <;> simp [pyOr, ratTruthy, h]

def c9wTx : InsiderTx :=
  { codingCode := some "P", transactionSharesValue := some 300,
    amountsShares := none, transactionPriceValue := some 0,
    amountsPricePerShare := some 25 }

def c9wTx2 : InsiderTx :=
  { codingCode := some "S", transactionSharesValue := some 999,
    amountsShares := none, transactionPriceValue := some 1,
    amountsPricePerShare := none }

def c9wEntry : InsiderEntry :=
  { reportingOwnerName := some "CFO", periodOfReport := some "2025-03-01",
    nonDerivativeTransactions := [c9wTx, c9wTx2] }

/-- Witness for C9: on a two-transaction filing only the first
transaction is read; its non-zero share count 300 wins, and its
present-but-zero price falls through to the alternate field 25. -/
theorem c9_witness :
    (_first_transaction c9wEntry).2.1 = some 300 ∧
    (_first_transaction c9wEntry).2.2 = some 25 := by
  have h := (c9_first_transaction_extraction c9wEntry).2 c9wTx [c9wTx2] rfl
  exact ⟨h.2.2.1 300 rfl (by norm_num), (h.2.2.2.2.2 (Or.inr rfl)).trans rfl⟩

/-! ### C10: the requested page size of get_insider_trades -/

/-- The POST body `get_insider_trades` sends to the insider-trading
endpoint: the joined query clauses and the requested page size; "from"
is always "0" and the sort is fixed, so neither is modelled.  Each
clause is represented by its variable payload (the upper-cased ticker,
the transaction code, the period range from `_date_range`). -/
structure InsiderReq where
  clauses : List String
  size : Int
  deriving DecidableEq

/-- Clause list of lines 460-464: ticker clause, then the optional
transaction-code clause, then the optional period-of-report range; both
optionals are added only when truthy (`if trans_code:` and the walrus
test on the `_date_range` result), so a present-but-empty string is
dropped. -/
def insiderClauses (tickerU : String) (trans_code : Option String)
    (dateRange : Option String) : List String :=
  [tickerU] ++ (match trans_code with
      | some c => if c = "" then [] else [c]
      | none => [])
    ++ (match dateRange with
      | some r => if r = "" then [] else [r]
      | none => [])

/-- The request built at lines 467-475, with size = str(min(max_results, 50)). -/
def buildInsiderReq (tickerU : String) (trans_code : Option String)
    (dateRange : Option String) (max_results : Int) : InsiderReq :=
  { clauses := insiderClauses tickerU trans_code dateRange,
    size := min max_results 50 }

/-- One bullet line of the report: period, owner, code, shares, price of
the entry's first transaction. -/
structure TradeLine where
  date : String
  owner : String
  code : String
  shares : Option Rat
  price : Option Rat
  deriving DecidableEq

inductive InsiderOut
  | endpointError
  | noTrades
  | report (lines : List TradeLine)
  deriving DecidableEq

/-- Embedding of `get_insider_trades`: build the request, POST it
(`post` models `_sec_post` on the insider-trading endpoint; an error is
the caught-and-reported exception branch), then either the no-trades
message or one line per returned transaction entry. -/
def get_insider_trades (post : InsiderReq → Except Unit (List InsiderEntry))
    (tickerU : String) (trans_code : Option String) (dateRange : Option String)
    (max_results : Int) : InsiderOut :=
  match post (buildInsiderReq tickerU trans_code dateRange max_results) with
  | .error _ => .endpointError
  | .ok txs =>
    if txs.isEmpty then .noTrades
    else .report (txs.map fun entry =>
      let r := _first_transaction entry
      { date := entry.periodOfReport.getD "?",
        owner := entry.reportingOwnerName.getD "—",
        code := r.1, shares := r.2.1, price := r.2.2 })

/-- C10: the page size sent to the endpoint is min(max_results, 50),
hence never more than 50; and when the endpoint honours the requested
size, the produced report never holds more than 50 transaction lines,
whatever max_results was. -/
theorem c10_insider_size_capped (post : InsiderReq → Except Unit (List InsiderEntry))
    (tickerU : String) (trans_code dateRange : Option String) (max_results : Int)
    (hresp : ∀ l, post (buildInsiderReq tickerU trans_code dateRange max_results) = .ok l →
      l.length ≤ (buildInsiderReq tickerU trans_code dateRange max_results).size.toNat) :
    (buildInsiderReq tickerU trans_code dateRange max_results).size = min max_results 50 ∧
    (buildInsiderReq tickerU trans_code dateRange max_results).size ≤ 50 ∧
    (∀ lines, get_insider_trades post tickerU trans_code dateRange max_results = .report lines →
      lines.length ≤ 50) := by
  refine ⟨rfl, min_le_right _ _, ?_⟩
  intro lines hrep
  unfold get_insider_trades at hrep
  cases hpost : post (buildInsiderReq tickerU trans_code dateRange max_results) with
  | error e => rw [hpost] at hrep; exact absurd hrep (by simp)
  | ok txs =>
    rw [hpost] at hrep
    dsimp only at hrep
    by_cases hemp : txs.isEmpty
    · rw [if_pos hemp] at hrep
      exact absurd hrep (by simp)
    · rw [if_neg hemp] at hrep
      have hmap := (InsiderOut.report.injEq _ _).mp hrep
      calc lines.length = txs.length := by rw [← hmap, List.length_map]
        _ ≤ (buildInsiderReq tickerU trans_code dateRange max_results).size.toNat :=
          hresp txs hpost
        _ ≤ 50 := by
          simp only [buildInsiderReq]
          omega

/-- Witness for C10: a caller asking for 120 results still sends size 50. -/
theorem c10_witness :
    (buildInsiderReq "AAPL" none none 120).size ≤ 50 :=
  (c10_insider_size_capped (fun _ => Except.ok []) "AAPL" none none 120
    (fun l hl => by
      cases hl
      simp)).2.1

/-! ### The identity resolver: `resolve_cik_name` (src/server.py lines 195-212) -/

/-- Python str.zfill: left-pad with the digit zero (code 48) to the
requested width; a leading plus or minus sign stays in front of the
padding. -/
def pyZfill (s : PyStr) (width : Nat) : PyStr :=
  if width ≤ s.length then s
  else
    match s with
    | c :: rest =>
      if c = 43 ∨ c = 45 then c :: (List.replicate (width - s.length) 48 ++ rest)
      else List.replicate (width - s.length) 48 ++ s
    | [] => List.replicate width 48

/-- The shapes of the mapping endpoint outcome the resolver
distinguishes: a raised exception (network error, non-2xx status,
malformed body - all caught by the bare except), a JSON body that is
not a list (isinstance check), or a list of entries, each carrying an
optional name field (none for a missing or null name; a first entry
that is not even a dict raises and is caught, so it behaves as the
raised shape). -/
inductive CikResp
  | raised
  | notList
  | entries (l : List (Option PyStr))
  deriving DecidableEq

/-- Embedding of `resolve_cik_name`.  `secGet` models `_sec_get` on the
/mapping/cik/ endpoint, keyed by the padded identifier.  The name field
is truthy when present and non-empty. -/
def resolve_cik_name (secGet : PyStr → CikResp) (cik : PyStr) : PyStr :=
  match secGet (pyZfill cik 10) with
  | .raised => cik
  | .notList => cik
  | .entries [] => cik
  | .entries (none :: _) => cik
  | .entries (some nm :: _) => if nm = [] then cik else nm

/-- C8: resolve_cik_name (a) queries the identifier zero-padded to 10
digits - the padded form has length max(10, len) and, absent a sign
character, is the original string left-padded with zeros, and the result
depends on the endpoint's answer at the padded key only; (b) returns the
first result's name when present and non-empty; (c) on every failure
shape - raised request, non-list payload, empty list, missing/null or
empty name - returns the original un-padded identifier. -/
theorem c8_resolve_cik_name (secGet : PyStr → CikResp) (cik : PyStr) :
    ((pyZfill cik 10).length = max 10 cik.length) ∧
    (cik.head? ≠ some 43 ∧ cik.head? ≠ some 45 →
      ∃ k, pyZfill cik 10 = List.replicate k 48 ++ cik) ∧
    (∀ g2 : PyStr → CikResp, g2 (pyZfill cik 10) = secGet (pyZfill cik 10) →
      resolve_cik_name g2 cik = resolve_cik_name secGet cik) ∧
    (∀ nm rest, secGet (pyZfill cik 10) = .entries (some nm :: rest) → nm ≠ [] →
      resolve_cik_name secGet cik = nm) ∧
    ((secGet (pyZfill cik 10) = .raised ∨ secGet (pyZfill cik 10) = .notList ∨
      secGet (pyZfill cik 10) = .entries [] ∨
      (∃ rest, secGet (pyZfill cik 10) = .entries (none :: rest)) ∨
      (∃ rest, secGet (pyZfill cik 10) = .entries (some [] :: rest))) →
      resolve_cik_name secGet cik = cik) := by
  refine ⟨?_, ?_, ?_, ?_, ?_⟩
  · rcases cik with _ | ⟨c, rest⟩
    · simp [pyZfill]
    · unfold pyZfill
      by_cases hw : 10 ≤ (c :: rest).length
      · rw [if_pos hw]
        omega
      · rw [if_neg hw]
        dsimp only
        by_cases hc : c = 43 ∨ c = 45
        · rw [if_pos hc]
          simp only [List.length_cons, List.length_append, List.length_replicate]
          omega
        · rw [if_neg hc]
          simp only [List.length_cons, List.length_append, List.length_replicate]
          omega
  · intro hsign
    rcases cik with _ | ⟨c, rest⟩
    · exact ⟨10, by simp [pyZfill]⟩
    · have hc : ¬(c = 43 ∨ c = 45) := by
        rcases hsign with ⟨h1, h2⟩
        simp only [List.head?_cons, ne_eq, Option.some.injEq] at h1 h2
        tauto
      by_cases hw : 10 ≤ (c :: rest).length
      · refine ⟨0, ?_⟩
        unfold pyZfill
        rw [if_pos hw]
        simp
      · refine ⟨10 - (c :: rest).length, ?_⟩
        unfold pyZfill
        rw [if_neg hw]
        dsimp only
        rw [if_neg hc]
  · intro g2 hg
    unfold resolve_cik_name
    rw [hg]
  · intro nm rest hres hnm
    unfold resolve_cik_name
    rw [hres]
    simp [hnm]
  · intro hfail
    unfold resolve_cik_name
    rcases hfail with h | h | h | ⟨r, h⟩ | ⟨r, h⟩ <;> rw [h] <;> simp

/-- "924171" -/
def c8Cik : PyStr := [57, 50, 52, 49, 55, 49]

/-- "Example Fund" -/
def c8Name : PyStr := [69, 120, 97, 109, 112, 108, 101, 32, 70, 117, 110, 100]

/-- An endpoint that knows exactly the padded key "0000924171". -/
def c8Get : PyStr → CikResp := fun p =>
  if p = [48, 48, 48, 48, 57, 50, 52, 49, 55, 49] then .entries [some c8Name]
  else .raised

/-- Witness for C8: "924171" is padded to "0000924171", resolves to
"Example Fund" against an endpoint that only knows the padded key, and
falls back to the original "924171" when every request raises. -/
theorem c8_witness :
    pyZfill c8Cik 10 = [48, 48, 48, 48, 57, 50, 52, 49, 55, 49] ∧
    resolve_cik_name c8Get c8Cik = c8Name ∧
    resolve_cik_name (fun _ => CikResp.raised) c8Cik = c8Cik := by
  refine ⟨by decide, ?_, ?_⟩
  · exact (c8_resolve_cik_name c8Get c8Cik).2.2.2.1 c8Name [] (by decide) (by decide)
  · exact (c8_resolve_cik_name (fun _ => CikResp.raised) c8Cik).2.2.2.2 (Or.inl rfl)

/-! ### The holdings aggregator: `get_institutional_holders`
(src/server.py lines 509-562).

The aggregation core (lines 537-553) is embedded.  The surrounding
query construction, the soft-failure messages, the sort and the top-N
cut do not bear on the aggregation claim.  `nameOf` abstracts the cached
`resolve_cik_name`, and the requested ticker is passed already
upper-cased (ticker.upper() is computed once at line 545). -/

structure Holding where
  ticker : Option String   -- h.get("ticker")
  sshPrnamt : Int          -- h.get("shrsOrPrnAmt", {}).get("sshPrnamt", 0)
  value : Int              -- h.get("value", 0)
  deriving DecidableEq

structure Filing13F where
  cik : String                   -- str(f.get("cik", "unknown"))
  periodOfReport : Option String -- f.get("periodOfReport")
  holdings : List Holding        -- f.get("holdings", [])
  deriving DecidableEq

/-- target_period = quarter or filings[0].get("periodOfReport"): the
explicit quarter when it is truthy (present and non-empty - Python `or`
tests truthiness), else the first record's period.  The list is
non-empty when this line runs (the empty case returned the no-holdings
message two lines earlier). -/
def targetPeriodOf (quarter : Option String) (filings : List Filing13F) : Option String :=
  match quarter with
  | some q => if q = "" then filings.head?.bind (·.periodOfReport) else some q
  | none => filings.head?.bind (·.periodOfReport)

/-- One update of the running-totals dict (lines 549-553): add to the
existing entry in place, or append a fresh entry. -/
def addHolding (agg : List (String × Int × Int)) (name : String) (sh v : Int) :
    List (String × Int × Int) :=
  match agg with
  | [] => [(name, sh, v)]
  | (n, s, w) :: rest =>
    if n = name then (n, s + sh, w + v) :: rest
    else (n, s, w) :: addHolding rest name sh v

/-- The line-item filter of line 545: keep holdings whose ticker field
equals the upper-cased requested ticker. -/
def holdingMatches (tickerU : String) (h : Holding) : Bool :=
  h.ticker == some tickerU

/-- Lines 542-553 for one filing: resolve the name once, then fold the
matching line-items into the totals. -/
def procFiling (nameOf : String → String) (tickerU : String)
    (agg : List (String × Int × Int)) (f : Filing13F) : List (String × Int × Int) :=
  (f.holdings.filter (holdingMatches tickerU)).foldl
    (fun a h => addHolding a (nameOf f.cik) h.sshPrnamt h.value) agg

/-- The aggregation core of `get_institutional_holders`: keep the
filings of the target period (line 538), then accumulate totals. -/
def aggregateHoldings (nameOf : String → String) (tickerU : String)
    (quarter : Option String) (filings : List Filing13F) : List (String × Int × Int) :=
  (filings.filter (fun f => f.periodOfReport == targetPeriodOf quarter filings)).foldl
    (procFiling nameOf tickerU) []

/-- The matching-ticker line-items the claim says feed the total of
`name`: those of target-period filings whose resolved name is `name`. -/
def contribHoldings (nameOf : String → String) (tickerU : String)
    (period : Option String) (filings : List Filing13F) (name : String) : List Holding :=
  ((filings.filter (fun f => f.periodOfReport == period)).filter
      (fun f => nameOf f.cik = name)).flatMap
    (fun f => f.holdings.filter (holdingMatches tickerU))

/-! Aggregation lemmas -/

def addTriple (agg : List (String × Int × Int)) (t : String × Int × Int) :
    List (String × Int × Int) :=
  addHolding agg t.1 t.2.1 t.2.2

/-- The per-holding contribution stream of a filing list, in processing
order. -/
def holdingTriples (nameOf : String → String) (tickerU : String)
    (fs : List Filing13F) : List (String × Int × Int) :=
  fs.flatMap (fun f => (f.holdings.filter (holdingMatches tickerU)).map
    (fun h => (nameOf f.cik, h.sshPrnamt, h.value)))

theorem alookup_addHolding (agg : List (String × Int × Int)) (name m : String)
    (sh v : Int) :
    alookup (addHolding agg name sh v) m =
      if m = name then
        some (match alookup agg name with
              | some (s, w) => (s + sh, w + v)
              | none => (sh, v))
      else alookup agg m := by
  induction agg with
  | nil =>
    by_cases hm : m = name
    · subst hm
      simp [addHolding, alookup]
    · have hnm : name ≠ m := fun h => hm h.symm
      simp [addHolding, alookup, hm, hnm]
  | cons p rest ih =>
    rcases p with ⟨n, s, w⟩
    by_cases hn : n = name
    · subst hn
      by_cases hm : m = n
      · subst hm
        simp [addHolding, alookup]
      · have hnm : n ≠ m := fun h => hm h.symm
        simp [addHolding, alookup, hm, hnm]
    · by_cases hm : m = name
      · subst hm
        have hnm : n ≠ m := fun h => hn h
        simp [addHolding, alookup, hn, hnm, ih]
      · by_cases hnm : n = m
        · subst hnm
          simp [addHolding, alookup, hn, hm]
        · simp [addHolding, alookup, hn, hm, hnm, ih]

theorem foldl_procFiling_eq (nameOf : String → String) (tickerU : String)
    (fs : List Filing13F) (acc : List (String × Int × Int)) :
    fs.foldl (procFiling nameOf tickerU) acc =
      (holdingTriples nameOf tickerU fs).foldl addTriple acc := by
  induction fs generalizing acc with
  | nil => rfl
  | cons f rest ih =>
    simp only [List.foldl_cons, holdingTriples, List.flatMap_cons, List.foldl_append]
    rw [ih]
    congr 1
    unfold procFiling
    rw [List.foldl_map]
    rfl

def sumShares (l : List (String × Int × Int)) : Int := (l.map (·.2.1)).sum

def sumValues (l : List (String × Int × Int)) : Int := (l.map (·.2.2)).sum

/-- Totals of a fold over contribution triples: the entry of `n` is the
entry already in the accumulator plus the sums of the triples named `n`;
a name with no accumulator entry and no triples stays absent. -/
theorem foldl_addTriple_alookup (ts : List (String × Int × Int))
    (acc : List (String × Int × Int)) (n : String) :
    alookup (ts.foldl addTriple acc) n =
      match alookup acc n, ts.filter (fun t => t.1 = n) with
      | some (s, w), l => some (s + sumShares l, w + sumValues l)
      | none, [] => none
      | none, l => some (sumShares l, sumValues l) := by
  induction ts generalizing acc with
  | nil =>
    cases h : alookup acc n with
    | none => simp [h, sumShares, sumValues]
    | some p => rcases p with ⟨s, w⟩; simp [h, sumShares, sumValues]
  | cons t rest ih =>
    rcases t with ⟨m, sh, v⟩
    simp only [List.foldl_cons]
    rw [ih]
    by_cases hm : m = n
    · subst hm
      rw [show (addTriple acc (m, sh, v)) = addHolding acc m sh v from rfl,
        alookup_addHolding, if_pos rfl, List.filter_cons, if_pos (by simp)]
      cases hacc : alookup acc m with
      | none => simp [sumShares, sumValues, add_assoc]
      | some p =>
        rcases p with ⟨s, w⟩
        simp [sumShares, sumValues, add_assoc]
    · rw [show (addTriple acc (m, sh, v)) = addHolding acc m sh v from rfl,
        alookup_addHolding]
      have hnm : ¬n = m := fun h => hm h.symm
      rw [if_neg hnm, List.filter_cons, if_neg (by simpa using hm)]

/-- Filtering the contribution stream by name is filtering the filings
by resolved name: every triple of one filing carries that filing's
resolved name. -/
theorem triples_filter_eq (nameOf : String → String) (tickerU : String)
    (fs : List Filing13F) (name : String) :
    (holdingTriples nameOf tickerU fs).filter (fun t => t.1 = name) =
      holdingTriples nameOf tickerU (fs.filter (fun f => nameOf f.cik = name)) := by
  induction fs with
  | nil => rfl
  | cons f rest ih =>
    by_cases hf : nameOf f.cik = name
    · have h1 : (f :: rest).filter (fun f => nameOf f.cik = name) =
          f :: rest.filter (fun f => nameOf f.cik = name) := by
        simp [List.filter_cons, hf]
      rw [h1]
      simp only [holdingTriples, List.flatMap_cons, List.filter_append] at ih ⊢
      rw [ih]
      congr 1
      apply List.filter_eq_self.mpr
      intro a ha
      obtain ⟨h, hmem, rfl⟩ := List.mem_map.mp ha
      simpa using hf
    · have h1 : (f :: rest).filter (fun f => nameOf f.cik = name) =
          rest.filter (fun f => nameOf f.cik = name) := by
        simp [List.filter_cons, hf]
      rw [h1]
      simp only [holdingTriples, List.flatMap_cons, List.filter_append] at ih ⊢
      have h2 : ((f.holdings.filter (holdingMatches tickerU)).map
          (fun h => (nameOf f.cik, h.sshPrnamt, h.value))).filter
            (fun t => t.1 = name) = [] := by
        apply List.filter_eq_nil.mpr
        intro a ha
        obtain ⟨h, hmem, rfl⟩ := List.mem_map.mp ha
        simpa using hf
      rw [h2]
      simpa using ih

theorem sumShares_triples (nameOf : String → String) (tickerU : String)
    (fs : List Filing13F) :
    sumShares (holdingTriples nameOf tickerU fs) =
      ((fs.flatMap (fun f => f.holdings.filter (holdingMatches tickerU))).map
        (·.sshPrnamt)).sum := by
  induction fs with
  | nil => rfl
  | cons f rest ih =>
    simp only [sumShares, holdingTriples, List.flatMap_cons, List.map_append,
      List.sum_append, List.map_map, Function.comp_def] at ih ⊢
    rw [ih]

theorem sumValues_triples (nameOf : String → String) (tickerU : String)
    (fs : List Filing13F) :
    sumValues (holdingTriples nameOf tickerU fs) =
      ((fs.flatMap (fun f => f.holdings.filter (holdingMatches tickerU))).map
        (·.value)).sum := by
  induction fs with
  | nil => rfl
  | cons f rest ih =>
    simp only [sumValues, holdingTriples, List.flatMap_cons, List.map_append,
      List.sum_append, List.map_map, Function.comp_def] at ih ⊢
    rw [ih]

theorem triples_eq_nil_iff (nameOf : String → String) (tickerU : String)
    (fs : List Filing13F) :
    holdingTriples nameOf tickerU fs = [] ↔
      fs.flatMap (fun f => f.holdings.filter (holdingMatches tickerU)) = [] := by
  induction fs with
  | nil => simp [holdingTriples]
  | cons f rest ih =>
    simp only [holdingTriples, List.flatMap_cons, List.append_eq_nil,
      List.map_eq_nil] at ih ⊢
    rw [ih]

/-- C5: (a) the per-name running totals of the holdings aggregator are
exactly the arithmetic sums of the share and value fields of the
matching-ticker line-items of the target-period filings resolving to
that name (and a name with no such line-item has no entry), with the
target period the explicit argument when given and truthy, else the
first record's period; (b) a record whose period differs from an
explicitly requested (non-empty) target contributes nothing: deleting
it anywhere leaves every total unchanged. -/
theorem c5_aggregation_totals (nameOf : String → String) (tickerU : String)
    (quarter : Option String) (filings : List Filing13F) (name : String) :
    (alookup (aggregateHoldings nameOf tickerU quarter filings) name =
      (if contribHoldings nameOf tickerU (targetPeriodOf quarter filings) filings name = []
       then none
       else some
        (((contribHoldings nameOf tickerU (targetPeriodOf quarter filings) filings name).map
            (·.sshPrnamt)).sum,
         ((contribHoldings nameOf tickerU (targetPeriodOf quarter filings) filings name).map
            (·.value)).sum))) ∧
    (∀ q pre post f, q ≠ "" → f.periodOfReport ≠ some q →
      aggregateHoldings nameOf tickerU (some q) (pre ++ f :: post) =
        aggregateHoldings nameOf tickerU (some q) (pre ++ post)) := by
  constructor
  · unfold aggregateHoldings contribHoldings
    rw [foldl_procFiling_eq, foldl_addTriple_alookup,
      show alookup ([] : List (String × Int × Int)) name = none from rfl,
      triples_filter_eq]
    by_cases hnil :
        ((filings.filter
            (fun f => f.periodOfReport == targetPeriodOf quarter filings)).filter
          (fun f => nameOf f.cik = name)).flatMap
            (fun f => f.holdings.filter (holdingMatches tickerU)) = []
    · rw [if_pos hnil]
      rw [(triples_eq_nil_iff nameOf tickerU _).mpr hnil]
    · rw [if_neg hnil]
      have htrip : holdingTriples nameOf tickerU
          ((filings.filter
              (fun f => f.periodOfReport == targetPeriodOf quarter filings)).filter
            (fun f => nameOf f.cik = name)) ≠ [] := by
        intro h
        exact hnil ((triples_eq_nil_iff nameOf tickerU _).mp h)
      cases htl : holdingTriples nameOf tickerU
          ((filings.filter
              (fun f => f.periodOfReport == targetPeriodOf quarter filings)).filter
            (fun f => nameOf f.cik = name)) with
      | nil => exact absurd htl htrip
      | cons t l =>
        dsimp only
        rw [← htl, sumShares_triples, sumValues_triples]
  · intro q pre post f hq hf
    unfold aggregateHoldings
    have htp : ∀ l : List Filing13F, targetPeriodOf (some q) l = some q := by
      intro l
      simp [targetPeriodOf, hq]
    simp only [htp]
    rw [List.filter_append, List.filter_append, List.filter_cons]
    have hbeq : (f.periodOfReport == some q) = false := beq_eq_false_iff_ne.mpr hf
    rw [hbeq]
    simp

/-- The name oracle of the C5 witness: CIKs 1 and 2 both resolve to the
same fund name (the collision-merging the spec documents); CIK 3 falls
back to itself. -/
def c5NameOf : String → String := fun c =>
  if c = "1" then "BlackRock Fund Advisors"
  else if c = "2" then "BlackRock Fund Advisors"
  else c

def c5F1 : Filing13F :=
  { cik := "1", periodOfReport := some "2025-06-30",
    holdings := [{ ticker := some "ABC", sshPrnamt := 100, value := 1000000 },
                 { ticker := some "XYZ", sshPrnamt := 77, value := 5 }] }

def c5F2 : Filing13F :=
  { cik := "2", periodOfReport := some "2025-06-30",
    holdings := [{ ticker := some "ABC", sshPrnamt := 200, value := 2000000 }] }

def c5F3 : Filing13F :=
  { cik := "3", periodOfReport := some "2025-03-31",
    holdings := [{ ticker := some "ABC", sshPrnamt := 999, value := 9 }] }

/-- Witness for C5: two same-period records resolving to the same name,
with shares 100 and 200 and values 1000000 and 2000000, aggregate to
(300, 3000000); the target period is the first record's period, the
older record and the other-ticker line-item contribute nothing, and
deleting the off-period record leaves the aggregation unchanged. -/
theorem c5_witness :
    alookup (aggregateHoldings c5NameOf "ABC" none [c5F1, c5F2, c5F3])
        "BlackRock Fund Advisors" = some (300, 3000000) ∧
    aggregateHoldings c5NameOf "ABC" (some "2025-06-30") ([c5F1, c5F2] ++ c5F3 :: []) =
      aggregateHoldings c5NameOf "ABC" (some "2025-06-30") ([c5F1, c5F2] ++ []) := by
  constructor
  · exact (c5_aggregation_totals c5NameOf "ABC" none [c5F1, c5F2, c5F3]
      "BlackRock Fund Advisors").1.trans (by decide)
  · exact (c5_aggregation_totals c5NameOf "ABC" (some "2025-06-30") [] "").2
      "2025-06-30" [c5F1, c5F2] [] c5F3 (by decide) (by decide)

/-! ### Batch resolution: `get_financial_snapshot` (src/server.py
lines 411-447).

Per requested (section, tag) pair: try the requested section verbatim;
when that yields no value (tag absent there, or present with a null
first value), scan all sections and take the first holding the tag (its
value may itself be null); finally store under the actual section via
snapshot.setdefault(actual_section, {})[tag] = value.  The inline scan
of lines 439-443 is the same loop as `_lookup_tag_any_section`, which is
reused here. -/

abbrev Snapshot := List (String × List (String × Option Rat))

/-- Python dict assignment d[k] = v: replace in place, else append. -/
def dictInsert {α : Type} (d : List (String × α)) (k : String) (v : α) :
    List (String × α) :=
  match d with
  | [] => [(k, v)]
  | (k', v') :: rest =>
    if k' = k then (k', v) :: rest else (k', v') :: dictInsert rest k v

/-- snapshot.setdefault(sec, {})[tag] = v (line 445). -/
def snapInsert (snap : Snapshot) (sec tag : String) (v : Option Rat) : Snapshot :=
  match snap with
  | [] => [(sec, [(tag, v)])]
  | (s, inner) :: rest =>
    if s = sec then (s, dictInsert inner tag v) :: rest
    else (s, inner) :: snapInsert rest sec tag v

/-- The per-tag loop body, steps 1-2 (lines 429-443): the actual section
and the value recorded for one requested (section, tag) pair. -/
def resolve_snapshot_tag (data : Content) (wanted tag : String) :
    Except PyExn (String × Option Rat) := do
  let v0 : Option Rat ←
    match alookup data wanted with
    | none => pure none
    | some sd =>
      match alookup sd tag with
      | none => pure none
      | some facts => do
        let entry ← pyIndex0 facts
        pure entry.value
  match v0 with
  | some v => pure (wanted, some v)
  | none =>
    match ← _lookup_tag_any_section data tag with
    | some (sec, v) => pure (sec, v)
    | none => pure (wanted, none)

/-- The request stream of the nested loops of line 427-428. -/
def snapshotRequests (metrics : List (String × List String)) : List (String × String) :=
  metrics.flatMap (fun p => p.2.map (fun t => (p.1, t)))

def snapshotCore (data : Content) : List (String × String) → Snapshot →
    Except PyExn Snapshot
  | [], acc => pure acc
  | (w, t) :: rest, acc => do
    let r ← resolve_snapshot_tag data w t
    snapshotCore data rest (snapInsert acc r.1 t r.2)

/-- Embedding of `get_financial_snapshot` (the parsed document is passed
in; the fetch and its error dict are modelled with the cache above). -/
def get_financial_snapshot (data : Content) (metrics : List (String × List String)) :
    Except PyExn Snapshot :=
  snapshotCore data (snapshotRequests metrics) []

/-- In how many section buckets of the output a tag appears. -/
def tagCount (snap : Snapshot) (tag : String) : Nat :=
  snap.countP (fun p => (alookup p.2 tag).isSome)

/-- The entry of `tag` inside bucket `sec` of the output. -/
def snapLookup (snap : Snapshot) (sec tag : String) : Option (Option Rat) :=
  (alookup snap sec).bind (fun inner => alookup inner tag)

/-- Tag T present in both requested sections with distinct values. -/
def c4Data : Content :=
  [("A", [("T", [{ value := some 1, periodEnd := none }])]),
   ("B", [("T", [{ value := some 2, periodEnd := none }])])]

/-- A document in which the requested tag has an empty fact list. -/
def c4DataEmptyFacts : Content := [("A", [("T", [])])]

/-- C4 counterexample: (a) requesting tag T under both sections A and B
of c4Data makes T appear TWICE in the snapshot, once per bucket; (b) on
a document whose tag carries an empty fact list the tool raises
IndexError, producing no snapshot at all, so the requested tag appears
zero times.  Both refute "every requested tag appears exactly once". -/
theorem c4_counterexample :
    (get_financial_snapshot c4Data [("A", ["T"]), ("B", ["T"])]).map
        (fun snap => tagCount snap "T") = .ok 2 ∧
    get_financial_snapshot c4DataEmptyFacts [("A", ["T"])] = .error .indexError := by
  constructor <;> rfl

/-! Dict and bucket lemmas for the snapshot -/

theorem alookup_dictInsert_self {α : Type} (d : List (String × α)) (k : String) (v : α) :
    alookup (dictInsert d k v) k = some v := by
  induction d with
  | nil => simp [dictInsert, alookup]
  | cons p rest ih =>
    rcases p with ⟨k', v'⟩
    by_cases hk : k' = k
    · simp [dictInsert, alookup, hk]
    · simp [dictInsert, alookup, hk, ih]

theorem alookup_dictInsert_ne {α : Type} (d : List (String × α)) (k : String) (v : α)
    (k2 : String) (h : k2 ≠ k) : alookup (dictInsert d k v) k2 = alookup d k2 := by
  have hne : ¬k = k2 := fun he => h he.symm
  induction d with
  | nil => simp [dictInsert, alookup, hne]
  | cons p rest ih =>
    rcases p with ⟨k', v'⟩
    by_cases hk : k' = k
    · subst hk
      simp [dictInsert, alookup, hne, ih]
    · simp [dictInsert, alookup, hk, ih]

theorem snapLookup_snapInsert_self (snap : Snapshot) (sec t : String) (v : Option Rat) :
    snapLookup (snapInsert snap sec t v) sec t = some v := by
  induction snap with
  | nil => simp [snapInsert, snapLookup, alookup, alookup_dictInsert_self]
  | cons p rest ih =>
    rcases p with ⟨s, inner⟩
    by_cases hs : s = sec
    · simp [snapInsert, snapLookup, alookup, hs, alookup_dictInsert_self]
    · simp only [snapInsert, if_neg hs]
      simpa [snapLookup, alookup, hs] using ih

theorem snapLookup_snapInsert_ne_tag (snap : Snapshot) (sec t : String) (v : Option Rat)
    (s2 t2 : String) (h : t2 ≠ t) :
    snapLookup (snapInsert snap sec t v) s2 t2 = snapLookup snap s2 t2 := by
  have ht : ¬t = t2 := fun he => h he.symm
  induction snap with
  | nil =>
    by_cases hs : sec = s2
    · simp [snapInsert, snapLookup, alookup, hs, ht]
    · simp [snapInsert, snapLookup, alookup, hs]
  | cons p rest ih =>
    rcases p with ⟨s, inner⟩
    by_cases hs : s = sec
    · rw [show snapInsert ((s, inner) :: rest) sec t v =
          (s, dictInsert inner t v) :: rest from by simp [snapInsert, hs]]
      by_cases hs2 : s = s2
      · simp [snapLookup, alookup, hs2, alookup_dictInsert_ne _ _ _ _ h]
      · simp [snapLookup, alookup, hs2]
    · rw [show snapInsert ((s, inner) :: rest) sec t v =
          (s, inner) :: snapInsert rest sec t v from by simp [snapInsert, hs]]
      by_cases hs2 : s = s2
      · simp [snapLookup, alookup, hs2]
      · have hl : snapLookup ((s, inner) :: snapInsert rest sec t v) s2 t2 =
            snapLookup (snapInsert rest sec t v) s2 t2 := by
          simp [snapLookup, alookup, hs2]
        have hr : snapLookup ((s, inner) :: rest) s2 t2 = snapLookup rest s2 t2 := by
          simp [snapLookup, alookup, hs2]
        rw [hl, hr, ih]

theorem tagCount_snapInsert_ne_tag (snap : Snapshot) (sec t : String) (v : Option Rat)
    (t2 : String) (h : t2 ≠ t) :
    tagCount (snapInsert snap sec t v) t2 = tagCount snap t2 := by
  have ht : ¬t = t2 := fun he => h he.symm
  induction snap with
  | nil =>
    simp [snapInsert, tagCount, alookup, ht]
  | cons p rest ih =>
    rcases p with ⟨s, inner⟩
    by_cases hs : s = sec
    · simp [snapInsert, tagCount, hs, List.countP_cons,
        alookup_dictInsert_ne _ _ _ _ h]
    · simp only [snapInsert, if_neg hs]
      simp only [tagCount, List.countP_cons] at ih ⊢
      rw [ih]

theorem tagCount_snapInsert_self_of_zero (snap : Snapshot) (sec t : String)
    (v : Option Rat) (h : tagCount snap t = 0) :
    tagCount (snapInsert snap sec t v) t = 1 := by
  induction snap with
  | nil => simp [snapInsert, tagCount, alookup]
  | cons p rest ih =>
    rcases p with ⟨s, inner⟩
    have hparts := h
    simp only [tagCount, List.countP_cons] at hparts
    by_cases hb : (alookup inner t).isSome
    · exfalso
      rw [if_pos hb] at hparts
      omega
    · have hrest : tagCount rest t = 0 := by
        rw [if_neg hb] at hparts
        simpa [tagCount] using hparts
      by_cases hs : s = sec
      · subst hs
        have hins : snapInsert ((s, inner) :: rest) s t v =
            (s, dictInsert inner t v) :: rest := by
          simp [snapInsert]
        rw [hins]
        simp only [tagCount, List.countP_cons]
        rw [if_pos (by simp [alookup_dictInsert_self])]
        simp only [tagCount] at hrest
        omega
      · have hins : snapInsert ((s, inner) :: rest) sec t v =
            (s, inner) :: snapInsert rest sec t v := by
          simp [snapInsert, hs]
        rw [hins]
        simp only [tagCount, List.countP_cons]
        rw [if_neg hb]
        have h2 := ih hrest
        simp only [tagCount] at h2
        omega

theorem tagCount_snapInsert_located (snap : Snapshot) (sec t : String) (v : Option Rat)
    (h : snapLookup snap sec t ≠ none) :
    tagCount (snapInsert snap sec t v) t = tagCount snap t := by
  induction snap with
  | nil => exact absurd rfl h
  | cons p rest ih =>
    rcases p with ⟨s, inner⟩
    by_cases hs : s = sec
    · subst hs
      have hb : (alookup inner t).isSome := by
        simp only [snapLookup, alookup, if_pos rfl, Option.some_bind] at h
        simpa [Option.isSome_iff_ne_none] using h
      have hins : snapInsert ((s, inner) :: rest) s t v =
          (s, dictInsert inner t v) :: rest := by
        simp [snapInsert]
      rw [hins]
      simp only [tagCount, List.countP_cons]
      rw [if_pos (by simp [alookup_dictInsert_self]), if_pos hb]
    · have h2 : snapLookup rest sec t ≠ none := by
        simpa [snapLookup, alookup, hs] using h
      have hins : snapInsert ((s, inner) :: rest) sec t v =
          (s, inner) :: snapInsert rest sec t v := by
        simp [snapInsert, hs]
      rw [hins]
      simp only [tagCount, List.countP_cons]
      have h3 := ih h2
      simp only [tagCount] at h3
      omega

/-! Resolution lemmas for the snapshot -/

theorem alookup_mem {κ α : Type} [DecidableEq κ] {l : List (κ × α)} {k : κ} {v : α}
    (h : alookup l k = some v) : (k, v) ∈ l := by
  induction l with
  | nil => simp [alookup] at h
  | cons p rest ih =>
    rcases p with ⟨k', v'⟩
    by_cases hk : k' = k
    · subst hk
      simp [alookup] at h
      subst h
      exact List.mem_cons_self _ _
    · simp only [alookup, if_neg hk] at h
      exact List.mem_cons_of_mem _ (ih h)

/-- Well-formed document: no tag maps to an empty fact list (an empty
one makes the tool raise IndexError, see the C4 counterexample). -/
abbrev FactsNonempty (data : Content) : Prop :=
  ∀ p ∈ data, ∀ q ∈ p.2, q.2 ≠ ([] : List Fact)

theorem lookup_any_ok (data : Content) (tag : String) (hwf : FactsNonempty data) :
    ∃ r, _lookup_tag_any_section data tag = .ok r := by
  induction data with
  | nil => exact ⟨none, rfl⟩
  | cons p rest ih =>
    rcases p with ⟨s, sd⟩
    have hwfr : FactsNonempty rest := fun q hq => hwf q (List.mem_cons_of_mem _ hq)
    cases hl : alookup sd tag with
    | none =>
      obtain ⟨r, hr⟩ := ih hwfr
      refine ⟨r, ?_⟩
      simp only [_lookup_tag_any_section, hl]
      exact hr
    | some facts =>
      have hne : facts ≠ [] :=
        hwf (s, sd) (List.mem_cons_self _ _) (tag, facts) (alookup_mem hl)
      cases facts with
      | nil => exact absurd rfl hne
      | cons e l =>
        exact ⟨some (s, e.value), by
          simp [_lookup_tag_any_section, hl, pyIndex0, Bind.bind, Except.bind,
            Pure.pure, Except.pure]⟩

theorem lookup_any_none (data : Content) (tag : String)
    (h : ∀ p ∈ data, alookup p.2 tag = none) :
    _lookup_tag_any_section data tag = .ok none := by
  induction data with
  | nil => rfl
  | cons p rest ih =>
    rcases p with ⟨s, sd⟩
    have hs : alookup sd tag = none := h (s, sd) (List.mem_cons_self _ _)
    simp only [_lookup_tag_any_section, hs]
    exact ih fun q hq => h q (List.mem_cons_of_mem _ hq)

theorem resolve_ok (data : Content) (w t : String) (hwf : FactsNonempty data) :
    ∃ sec v, resolve_snapshot_tag data w t = .ok (sec, v) := by
  unfold resolve_snapshot_tag
  obtain ⟨r, hr⟩ := lookup_any_ok data t hwf
  cases hd : alookup data w with
  | none =>
    cases r with
    | none =>
      exact ⟨w, none, by simp [hd, hr, Bind.bind, Except.bind, Pure.pure, Except.pure]⟩
    | some p =>
      rcases p with ⟨sec, v⟩
      exact ⟨sec, v, by simp [hd, hr, Bind.bind, Except.bind, Pure.pure, Except.pure]⟩
  | some sd =>
    cases hsd : alookup sd t with
    | none =>
      cases r with
      | none =>
        exact ⟨w, none, by simp [hd, hsd, hr, Bind.bind, Except.bind, Pure.pure, Except.pure]⟩
      | some p =>
        rcases p with ⟨sec, v⟩
        exact ⟨sec, v, by simp [hd, hsd, hr, Bind.bind, Except.bind, Pure.pure, Except.pure]⟩
    | some facts =>
      have hne : facts ≠ [] := hwf (w, sd) (alookup_mem hd) (t, facts) (alookup_mem hsd)
      cases facts with
      | nil => exact absurd rfl hne
      | cons e l =>
        cases he : e.value with
        | some v =>
          exact ⟨w, some v, by
            simp [hd, hsd, he, pyIndex0, Bind.bind, Except.bind, Pure.pure, Except.pure]⟩
        | none =>
          cases r with
          | none =>
            exact ⟨w, none, by
              simp [hd, hsd, he, hr, pyIndex0, Bind.bind, Except.bind, Pure.pure, Except.pure]⟩
          | some p =>
            rcases p with ⟨sec, v⟩
            exact ⟨sec, v, by
              simp [hd, hsd, he, hr, pyIndex0, Bind.bind, Except.bind, Pure.pure, Except.pure]⟩

theorem resolve_unresolved (data : Content) (w t : String)
    (h : ∀ p ∈ data, alookup p.2 t = none) :
    resolve_snapshot_tag data w t = .ok (w, none) := by
  unfold resolve_snapshot_tag
  have hscan := lookup_any_none data t h
  cases hd : alookup data w with
  | none => simp [hd, hscan, Bind.bind, Except.bind, Pure.pure, Except.pure]
  | some sd =>
    have hsd : alookup sd t = none := h (w, sd) (alookup_mem hd)
    simp [hd, hsd, hscan, Bind.bind, Except.bind, Pure.pure, Except.pure]

/-- The accumulator-passing induction behind C4: under pairwise-coherent
requests, processing them keeps every already-placed tag in exactly one
bucket (the one its resolution names) and leaves unrequested tags
untouched. -/
theorem snapshotCore_spec (data : Content) (hwf : FactsNonempty data)
    (reqs : List (String × String)) :
    ∀ acc : Snapshot,
    (∀ p ∈ reqs, ∀ q ∈ reqs, p.2 = q.2 → p.1 = q.1) →
    (∀ p ∈ reqs, tagCount acc p.2 = 0 ∨
      (∃ sec v, resolve_snapshot_tag data p.1 p.2 = .ok (sec, v) ∧
        snapLookup acc sec p.2 = some v ∧ tagCount acc p.2 = 1)) →
    ∃ snap, snapshotCore data reqs acc = .ok snap ∧
      (∀ p ∈ reqs, ∃ sec v, resolve_snapshot_tag data p.1 p.2 = .ok (sec, v) ∧
        snapLookup snap sec p.2 = some v ∧ tagCount snap p.2 = 1) ∧
      (∀ t2, (∀ w2, (w2, t2) ∉ reqs) →
        tagCount snap t2 = tagCount acc t2 ∧
        ∀ s, snapLookup snap s t2 = snapLookup acc s t2) := by
  induction reqs with
  | nil =>
    intro acc _ _
    refine ⟨acc, rfl, ?_, ?_⟩
    · intro p hp
      exact absurd hp (List.not_mem_nil p)
    · intro t2 _
      exact ⟨rfl, fun s => rfl⟩
  | cons r rest ih =>
    intro acc hdisj hacc
    rcases r with ⟨w, t⟩
    obtain ⟨sec, v, hres⟩ := resolve_ok data w t hwf
    have hloc3 : snapLookup (snapInsert acc sec t v) sec t = some v :=
      snapLookup_snapInsert_self acc sec t v
    have hcnt2 : tagCount (snapInsert acc sec t v) t = 1 := by
      rcases hacc (w, t) (List.mem_cons_self _ _) with h0 | ⟨sec2, v2, hres2, hloc2, hcnt1⟩
      · exact tagCount_snapInsert_self_of_zero acc sec t v h0
      · rw [hres] at hres2
        obtain ⟨hsec, hv⟩ : sec = sec2 ∧ v = v2 := by
          simpa using hres2
        subst hsec
        subst hv
        have hne : snapLookup acc sec t ≠ none := by
          rw [hloc2]
          simp
        rw [tagCount_snapInsert_located acc sec t v hne]
        exact hcnt1
    have hdisjr : ∀ p ∈ rest, ∀ q ∈ rest, p.2 = q.2 → p.1 = q.1 :=
      fun p hp q hq => hdisj p (List.mem_cons_of_mem _ hp) q (List.mem_cons_of_mem _ hq)
    have hacc2 : ∀ p ∈ rest, tagCount (snapInsert acc sec t v) p.2 = 0 ∨
        (∃ s2 v2, resolve_snapshot_tag data p.1 p.2 = .ok (s2, v2) ∧
          snapLookup (snapInsert acc sec t v) s2 p.2 = some v2 ∧
          tagCount (snapInsert acc sec t v) p.2 = 1) := by
      intro p hp
      by_cases hpt : p.2 = t
      · right
        have hw : p.1 = w :=
          hdisj p (List.mem_cons_of_mem _ hp) (w, t) (List.mem_cons_self _ _) hpt
        refine ⟨sec, v, ?_, ?_, ?_⟩
        · rw [hw, hpt]
          exact hres
        · rw [hpt]
          exact hloc3
        · rw [hpt]
          exact hcnt2
      · rcases hacc p (List.mem_cons_of_mem _ hp) with h0 | ⟨s2, v2, hr2, hl2, hc2⟩
        · left
          rw [tagCount_snapInsert_ne_tag acc sec t v p.2 hpt]
          exact h0
        · right
          refine ⟨s2, v2, hr2, ?_, ?_⟩
          · rw [snapLookup_snapInsert_ne_tag acc sec t v s2 p.2 hpt]
            exact hl2
          · rw [tagCount_snapInsert_ne_tag acc sec t v p.2 hpt]
            exact hc2
    obtain ⟨snap, hrun, hall, hframe⟩ := ih (snapInsert acc sec t v) hdisjr hacc2
    have hstep : snapshotCore data ((w, t) :: rest) acc =
        snapshotCore data rest (snapInsert acc sec t v) := by
      simp [snapshotCore, hres, Bind.bind, Except.bind]
    refine ⟨snap, hstep.trans hrun, ?_, ?_⟩
    · intro p hp
      rcases List.mem_cons.mp hp with heq | hmem
      · subst heq
        by_cases htin : ∀ w2, (w2, t) ∉ rest
        · have hfr := hframe t htin
          refine ⟨sec, v, hres, ?_, ?_⟩
          · rw [hfr.2 sec]
            exact hloc3
          · rw [hfr.1]
            exact hcnt2
        · push_neg at htin
          obtain ⟨w2, hw2⟩ := htin
          have hw2w : w2 = w :=
            hdisj (w2, t) (List.mem_cons_of_mem _ hw2) (w, t) (List.mem_cons_self _ _) rfl
          subst hw2w
          exact hall (w2, t) hw2
      · exact hall p hmem
    · intro t2 ht2
      have ht2r : ∀ w2, (w2, t2) ∉ rest := fun w2 hm => ht2 w2 (List.mem_cons_of_mem _ hm)
      have ht2t : t2 ≠ t := by
        intro he
        exact ht2 w (by rw [he]; exact List.mem_cons_self _ _)
      have hfr := hframe t2 ht2r
      refine ⟨?_, ?_⟩
      · rw [hfr.1, tagCount_snapInsert_ne_tag acc sec t v t2 ht2t]
      · intro s
        rw [hfr.2 s, snapLookup_snapInsert_ne_tag acc sec t v s t2 ht2t]

/-- C4 (amended with: provided no tag carries an empty fact list and no
tag is requested under more than one section): every requested tag
appears in exactly one section bucket of get_financial_snapshot, namely
the one its resolution names with the value found there; a tag found in
no section of the document is recorded under its originally-requested
section with a null value.  (As frozen the claim fails twice over: a tag
requested under two sections can appear twice, and an empty fact list
raises IndexError and yields no snapshot - see the counterexample.) -/
theorem c4_snapshot_each_tag_once (data : Content) (metrics : List (String × List String))
    (hwf : FactsNonempty data)
    (hdisj : ∀ p ∈ snapshotRequests metrics, ∀ q ∈ snapshotRequests metrics,
      p.2 = q.2 → p.1 = q.1) :
    ∃ snap, get_financial_snapshot data metrics = .ok snap ∧
      ∀ w t, (w, t) ∈ snapshotRequests metrics →
        tagCount snap t = 1 ∧
        ∃ sec v, resolve_snapshot_tag data w t = .ok (sec, v) ∧
          snapLookup snap sec t = some v ∧
          ((∀ p ∈ data, alookup p.2 t = none) → sec = w ∧ v = none) := by
  obtain ⟨snap, hrun, hall, -⟩ := snapshotCore_spec data hwf (snapshotRequests metrics) []
    hdisj (fun p _ => Or.inl rfl)
  refine ⟨snap, hrun, ?_⟩
  intro w t hm
  obtain ⟨sec, v, hres, hloc, hcnt⟩ := hall (w, t) hm
  refine ⟨hcnt, sec, v, hres, hloc, ?_⟩
  intro hnone
  have hu := resolve_unresolved data w t hnone
  rw [hres] at hu
  obtain ⟨hsec, hv⟩ : sec = w ∧ v = none := by
    simpa using hu
  exact ⟨hsec, hv⟩

def c4wData : Content :=
  [("S1", [("Assets", [{ value := some 5, periodEnd := some "2024-12-31" }]),
           ("Revenues", [{ value := some 9, periodEnd := some "2024-12-31" }])]),
   ("S2", [("NetIncome", [{ value := some 3, periodEnd := some "2024-12-31" }])])]

def c4wMetrics : List (String × List String) :=
  [("S1", ["Assets"]), ("S2", ["NetIncome", "Missing"])]

/-- Witness for C4: three requested tags, one of them absent from the
document; each appears exactly once, and the absent one sits in its
originally-requested bucket with a null value. -/
theorem c4_witness :
    (get_financial_snapshot c4wData c4wMetrics).map (fun s => tagCount s "Assets") = .ok 1 ∧
    (get_financial_snapshot c4wData c4wMetrics).map (fun s => tagCount s "Missing") = .ok 1 ∧
    (get_financial_snapshot c4wData c4wMetrics).map
      (fun s => snapLookup s "S2" "Missing") = .ok (some none) := by
  obtain ⟨snap, hrun, hprops⟩ :=
    c4_snapshot_each_tag_once c4wData c4wMetrics (by decide) (by decide)
  rw [hrun]
  obtain ⟨h1, -⟩ := hprops "S1" "Assets" (by decide)
  obtain ⟨h2, sec, v, hres, hloc, hunres⟩ := hprops "S2" "Missing" (by decide)
  obtain ⟨hsec, hv⟩ := hunres (by decide)
  subst hsec
  subst hv
  refine ⟨?_, ?_, ?_⟩
  · simp [Except.map, h1]
  · simp [Except.map, h2]
  · simp [Except.map, hloc]

end SecScraper
